import Mathlib

set_option maxHeartbeats 1000000

/-!
Verification development for the Empirion task-scheduler and broadcast-hub
core.  The definitions below are a shallow embedding of the Python sources
`src/agents/pool.py`, `src/agents/hyperagent.py` and `src/websockets/server.py`:
dictionaries become insertion-ordered association lists, float arithmetic is
embedded as rational arithmetic (`Rat`), and asynchronous effects (database
writes, socket sends, logging) are either dropped when no claim observes them
or made explicit parameters (e.g. whether a send to a given connection
succeeds).
-/

/-! ## Agent data model (hyperagent.py) -/

/-- A named capability with a numeric level (`AgentCapability`). -/
structure AgentCapability where
  name : String
  level : Rat
  deriving Repr, DecidableEq

/-- The capability vector a freshly constructed agent starts with
(`HyperAgent._initialize_capabilities`). -/
def initialCapabilities : List AgentCapability :=
  [⟨"quantum_processing", 1⟩,
   ⟨"pattern_recognition", 1⟩,
   ⟨"adaptive_learning", 1⟩,
   ⟨"memory_optimization", 1⟩,
   ⟨"task_execution", 1⟩,
   ⟨"communication", 1⟩,
   ⟨"self_modification", 1/2⟩,
   ⟨"predictive_analysis", 4/5⟩]

/-- The pool-relevant state of a `HyperAgent`. -/
structure HyperAgent where
  id : String
  name : String
  agent_type : String
  status : String
  capabilities : List AgentCapability
  success_rate : Rat
  tasks_completed : Nat
  learning_rate : Rat
  deriving Repr, DecidableEq

/-- The fixed relevance table of `HyperAgent._get_relevant_capabilities`. -/
def relevanceMap : List (String × List String) :=
  [("data_analysis", ["pattern_recognition", "adaptive_learning", "quantum_processing"]),
   ("pattern_recognition", ["pattern_recognition", "memory_optimization"]),
   ("optimization", ["quantum_processing", "adaptive_learning", "predictive_analysis"]),
   ("communication", ["communication", "memory_optimization"]),
   ("learning", ["adaptive_learning", "memory_optimization", "self_modification"])]

/-- Capability names relevant to a task type; unmapped types fall back to the
single default capability `task_execution`. -/
def relevantNames (taskType : String) : List String :=
  match relevanceMap.lookup taskType with
  | some ns => ns
  | none => ["task_execution"]

/-- `HyperAgent._get_relevant_capabilities`. -/
def getRelevantCapabilities (a : HyperAgent) (taskType : String) : List AgentCapability :=
  a.capabilities.filter (fun cap => (relevantNames taskType).contains cap.name)

/-! ## Selection policy (pool.py) -/

/-- Score used by `AgentPool._select_best_agent`:
sum of relevant capability levels times the success rate. -/
def agentScore (a : HyperAgent) (taskType : String) : Rat :=
  ((getRelevantCapabilities a taskType).map (fun c => c.level)).sum * a.success_rate

/-- The loop body of `_select_best_agent`: keep the running best agent and its
score, replacing it only on a strictly larger score. -/
def selectBestGo (taskType : String) : Option HyperAgent → Rat → List HyperAgent → Option HyperAgent
  | best, _, [] => best
  | best, bestScore, a :: rest =>
    if bestScore < agentScore a taskType then
      selectBestGo taskType (some a) (agentScore a taskType) rest
    else
      selectBestGo taskType best bestScore rest

/-- `AgentPool._select_best_agent`: run the loop starting from no best agent and
score `0`; fall back to the first agent if no agent scored above `0`. -/
def selectBestAgent (agents : List HyperAgent) (taskType : String) : Option HyperAgent :=
  match selectBestGo taskType none 0 agents with
  | some b => some b
  | none => agents.head?

/-- Mean relevant-capability level of `_select_least_loaded_capable_agent`;
an agent with no relevant capabilities is scored `0.5`. -/
def avgCapability (a : HyperAgent) (taskType : String) : Rat :=
  let caps := getRelevantCapabilities a taskType
  if caps.isEmpty then 1/2
  else ((caps.map (fun c => c.level)).sum) / (caps.length : Rat)

/-- Agents passing the `avg_capability >= 0.7` threshold. -/
def capableAgents (agents : List HyperAgent) (taskType : String) : List HyperAgent :=
  agents.filter (fun a => decide ((7 : Rat)/10 ≤ avgCapability a taskType))

/-- The set `_select_least_loaded_capable_agent` actually chooses from: the
capable agents, or all agents when none qualify. -/
def candidatePool (agents : List HyperAgent) (taskType : String) : List HyperAgent :=
  let c := capableAgents agents taskType
  if c.isEmpty then agents else c

/-- First agent with minimal workload: the head of a stable ascending sort by
workload, as computed by `capable_agents.sort(key=workload)` followed by `[0]`. -/
def pickFirstMin (wl : String → Nat) : List HyperAgent → Option HyperAgent
  | [] => none
  | a :: rest =>
    match pickFirstMin wl rest with
    | none => some a
    | some b => if wl b.id < wl a.id then some b else some a

/-- `AgentPool._select_least_loaded_capable_agent`. -/
def selectLeastLoadedCapableAgent (agents : List HyperAgent) (taskType : String)
    (wl : String → Nat) : Option HyperAgent :=
  pickFirstMin wl (candidatePool agents taskType)

/-- `AgentPool._select_round_robin_agent`: index with the shared cursor modulo
the list length, then advance the cursor by one. -/
def selectRoundRobinAgent (agents : List HyperAgent) (rrIndex : Nat) :
    Option HyperAgent × Nat :=
  if agents.isEmpty then (none, rrIndex)
  else (agents.get? (rrIndex % agents.length), rrIndex + 1)

/-- `AgentPool._select_agent_for_task`: filter the active agents, then tier on
the task priority (best-score for `p >= 5`, least-loaded-capable for
`3 <= p < 5`, round-robin otherwise).  Returns the chosen agent together with
the round-robin cursor after the call. -/
def selectAgentForTask (agentsList : List HyperAgent) (wl : String → Nat)
    (rrIndex : Nat) (taskType : String) (priority : Nat) : Option HyperAgent × Nat :=
  if agentsList.isEmpty then (none, rrIndex)
  else
    let active := agentsList.filter (fun a => a.status == "active")
    if active.isEmpty then (none, rrIndex)
    else if 5 ≤ priority then (selectBestAgent active taskType, rrIndex)
    else if 3 ≤ priority then (selectLeastLoadedCapableAgent active taskType wl, rrIndex)
    else selectRoundRobinAgent active rrIndex

/-! ## Best-score selection: loop characterization -/

/-- Loop invariant of `selectBestGo`: either no agent beat the incoming score
(and the incoming best is returned), or the result is the first agent beating
every earlier score, and no later agent strictly beats it. -/
theorem selectBestGo_spec (taskType : String) (l : List HyperAgent) :
    ∀ (best : Option HyperAgent) (s : Rat),
      (selectBestGo taskType best s l = best ∧ ∀ a ∈ l, agentScore a taskType ≤ s) ∨
      (∃ pre b post, l = pre ++ b :: post ∧
        selectBestGo taskType best s l = some b ∧ s < agentScore b taskType ∧
        (∀ a ∈ pre, agentScore a taskType < agentScore b taskType) ∧
        (∀ a ∈ post, agentScore a taskType ≤ agentScore b taskType)) := by
  induction l with
  | nil =>
    intro best s
    left
    exact ⟨rfl, by simp⟩
  | cons a rest ih =>
    intro best s
    by_cases h : s < agentScore a taskType
    · rcases ih (some a) (agentScore a taskType) with ⟨heq, hle⟩ |
        ⟨pre, b, post, hsplit, heq, hgt, hpre, hpost⟩
      · right
        refine ⟨[], a, rest, rfl, ?_, h, by simp, hle⟩
        simpa [selectBestGo, h] using heq
      · right
        refine ⟨a :: pre, b, post, by simp [hsplit], ?_, lt_trans h hgt, ?_, hpost⟩
        · simpa [selectBestGo, h] using heq
        · intro x hx
          rcases List.mem_cons.mp hx with rfl | hx'
          · exact hgt
          · exact hpre x hx'
    · push_neg at h
      rcases ih best s with ⟨heq, hle⟩ |
        ⟨pre, b, post, hsplit, heq, hgt, hpre, hpost⟩
      · left
        refine ⟨?_, ?_⟩
        · simpa [selectBestGo, not_lt.mpr h] using heq
        · intro x hx
          rcases List.mem_cons.mp hx with rfl | hx'
          · exact h
          · exact hle x hx'
      · right
        refine ⟨a :: pre, b, post, by simp [hsplit], ?_, hgt, ?_, hpost⟩
        · simpa [selectBestGo, not_lt.mpr h] using heq
        · intro x hx
          rcases List.mem_cons.mp hx with rfl | hx'
          · exact lt_of_le_of_lt h hgt
          · exact hpre x hx'

/-- An agents list in which every agent has status `"active"` passes through the
active filter of `_select_agent_for_task` unchanged. -/
theorem activeFilter_eq_self (agents : List HyperAgent)
    (hact : ∀ a ∈ agents, a.status = "active") :
    agents.filter (fun a => a.status == "active") = agents := by
  apply List.filter_eq_self.mpr
  intro a ha
  exact beq_iff_eq.mpr (hact a ha)

/-- Routing: a priority-`>= 5` dispatch over an all-active, non-empty agents
list runs the best-score policy and leaves the round-robin cursor unchanged. -/
theorem selectAgentForTask_high (agents : List HyperAgent) (wl : String → Nat)
    (rrIndex : Nat) (taskType : String) (priority : Nat)
    (hne : agents ≠ []) (hact : ∀ a ∈ agents, a.status = "active")
    (hp : 5 ≤ priority) :
    selectAgentForTask agents wl rrIndex taskType priority =
      (selectBestAgent agents taskType, rrIndex) := by
  have hfilter := activeFilter_eq_self agents hact
  have hne' : agents.isEmpty = false := by
    cases agents with
    | nil => exact absurd rfl hne
    | cons a rest => rfl
  simp [selectAgentForTask, hfilter, hne', hp]

/-- A nonnegative success rate and nonnegative capability levels give a
nonnegative best-score. -/
theorem agentScore_nonneg (a : HyperAgent) (taskType : String)
    (hr : 0 ≤ a.success_rate) (hc : ∀ c ∈ a.capabilities, 0 ≤ c.level) :
    0 ≤ agentScore a taskType := by
  apply mul_nonneg _ hr
  apply List.sum_nonneg
  intro x hx
  rcases List.mem_map.mp hx with ⟨c, hc', rfl⟩
  exact hc c (List.mem_filter.mp hc').1

/-- C1: for every non-empty list of active executors and every task of priority
at least 5, `_select_agent_for_task` returns an executor whose score (relevant
capability sum times success rate) is maximal over the list, every strictly
earlier executor has a strictly smaller score (so ties go to the first in
iteration order, and when every score is zero the first executor is returned). -/
theorem C1_high_priority_best_score (agents : List HyperAgent) (wl : String → Nat)
    (rrIndex : Nat) (taskType : String) (priority : Nat)
    (hne : agents ≠ []) (hact : ∀ a ∈ agents, a.status = "active")
    (hp : 5 ≤ priority)
    (hrate : ∀ a ∈ agents, 0 ≤ a.success_rate)
    (hcaps : ∀ a ∈ agents, ∀ c ∈ a.capabilities, 0 ≤ c.level) :
    ∃ b pre post,
      (selectAgentForTask agents wl rrIndex taskType priority).1 = some b ∧
      agents = pre ++ b :: post ∧
      (∀ a ∈ agents, agentScore a taskType ≤ agentScore b taskType) ∧
      (∀ a ∈ pre, agentScore a taskType < agentScore b taskType) := by
  have hroute := selectAgentForTask_high agents wl rrIndex taskType priority hne hact hp
  rw [hroute]
  have hnn : ∀ a ∈ agents, 0 ≤ agentScore a taskType := fun a ha =>
    agentScore_nonneg a taskType (hrate a ha) (hcaps a ha)
  rcases selectBestGo_spec taskType agents none 0 with ⟨heq, hle⟩ |
    ⟨pre, b, post, hsplit, heq, _, hpre, hpost⟩
  · -- no agent scored above zero: fall back to the head
    cases agents with
    | nil => exact absurd rfl hne
    | cons a rest =>
      refine ⟨a, [], rest, ?_, rfl, ?_, ?_⟩
      · simp [selectBestAgent, heq]
      · intro x hx
        have h0 : agentScore x taskType ≤ 0 := hle x hx
        have h0' : 0 ≤ agentScore a taskType := hnn a (List.mem_cons_self a rest)
        exact le_trans h0 h0'
      · intro x hx
        simp at hx
  · refine ⟨b, pre, post, ?_, hsplit, ?_, hpre⟩
    · simp [selectBestAgent, heq]
    · intro x hx
      rw [hsplit] at hx
      rcases List.mem_append.mp hx with hx' | hx'
      · exact le_of_lt (hpre x hx')
      · rcases List.mem_cons.mp hx' with rfl | hx''
        · exact le_refl _
        · exact hpost x hx''

/-- Witness for C1 on a concrete two-agent pool: the second agent has the
strictly better score and is selected. -/
def c1AgentLow : HyperAgent :=
  { id := "c1a", name := "Low", agent_type := "HyperAgent", status := "active",
    capabilities := [⟨"task_execution", 1⟩], success_rate := 1/2,
    tasks_completed := 0, learning_rate := 1/100 }

def c1AgentHigh : HyperAgent :=
  { id := "c1b", name := "High", agent_type := "HyperAgent", status := "active",
    capabilities := [⟨"task_execution", 2⟩], success_rate := 1,
    tasks_completed := 0, learning_rate := 1/100 }

theorem C1_high_priority_best_score_witness :
    ∃ b pre post,
      (selectAgentForTask [c1AgentLow, c1AgentHigh] (fun _ => 0) 0 "general" 5).1 = some b ∧
      [c1AgentLow, c1AgentHigh] = pre ++ b :: post ∧
      (∀ a ∈ [c1AgentLow, c1AgentHigh], agentScore a "general" ≤ agentScore b "general") ∧
      (∀ a ∈ pre, agentScore a "general" < agentScore b "general") :=
  C1_high_priority_best_score [c1AgentLow, c1AgentHigh] (fun _ => 0) 0 "general" 5
    (by simp) (by with_unfolding_all decide) (by decide)
    (by with_unfolding_all decide) (by with_unfolding_all decide)

/-! ## Least-loaded-capable selection -/

/-- `pickFirstMin` returns the first element whose workload is minimal: every
earlier element is strictly heavier, every later one at least as heavy. -/
theorem pickFirstMin_spec (wl : String → Nat) (l : List HyperAgent) (hne : l ≠ []) :
    ∃ pre b post, pickFirstMin wl l = some b ∧ l = pre ++ b :: post ∧
      (∀ a ∈ pre, wl b.id < wl a.id) ∧ (∀ a ∈ post, wl b.id ≤ wl a.id) := by
  induction l with
  | nil => exact absurd rfl hne
  | cons a rest ih =>
    cases hr : rest with
    | nil =>
      refine ⟨[], a, [], ?_, rfl, by simp, by simp⟩
      simp [pickFirstMin]
    | cons r rs =>
      rw [← hr]
      have hne' : rest ≠ [] := by simp [hr]
      rcases ih hne' with ⟨pre, b, post, heq, hsplit, hpre, hpost⟩
      by_cases hlt : wl b.id < wl a.id
      · refine ⟨a :: pre, b, post, ?_, by simp [hsplit], ?_, hpost⟩
        · simp [pickFirstMin, heq, hlt]
        · intro x hx
          rcases List.mem_cons.mp hx with rfl | hx'
          · exact hlt
          · exact hpre x hx'
      · push_neg at hlt
        refine ⟨[], a, rest, ?_, rfl, by simp, ?_⟩
        · simp [pickFirstMin, heq, not_lt.mpr hlt]
        · intro x hx
          rw [hsplit] at hx
          rcases List.mem_append.mp hx with hx' | hx'
          · exact le_trans hlt (le_of_lt (hpre x hx'))
          · rcases List.mem_cons.mp hx' with rfl | hx''
            · exact hlt
            · exact le_trans hlt (hpost x hx'')

/-- Routing: a priority-3-or-4 dispatch over an all-active, non-empty agents
list runs the least-loaded-capable policy and leaves the cursor unchanged. -/
theorem selectAgentForTask_mid (agents : List HyperAgent) (wl : String → Nat)
    (rrIndex : Nat) (taskType : String) (priority : Nat)
    (hne : agents ≠ []) (hact : ∀ a ∈ agents, a.status = "active")
    (hp3 : 3 ≤ priority) (hp5 : priority < 5) :
    selectAgentForTask agents wl rrIndex taskType priority =
      (selectLeastLoadedCapableAgent agents taskType wl, rrIndex) := by
  have hfilter := activeFilter_eq_self agents hact
  have hne' : agents.isEmpty = false := by
    cases agents with
    | nil => exact absurd rfl hne
    | cons a rest => rfl
  simp [selectAgentForTask, hfilter, hne', hp3, Nat.not_le.mpr hp5]

/-- The pool the medium tier considers is never empty when the agents list
is not, and is either the capable agents or the full list. -/
theorem candidatePool_ne_nil (agents : List HyperAgent) (taskType : String)
    (hne : agents ≠ []) : candidatePool agents taskType ≠ [] := by
  unfold candidatePool
  by_cases hc : (capableAgents agents taskType).isEmpty
  · simpa [hc] using hne
  · have hcn : capableAgents agents taskType ≠ [] := by
      intro h
      rw [h] at hc
      simp at hc
    simpa [hc] using hcn

/-- C8: for a non-empty all-active executor list and a task of priority
`3 <= p < 5`, the selection considers exactly the executors whose mean
relevant-capability level is at least `0.7` (falling back to all executors when
none qualify) and returns the first executor of that set having the smallest
workload count: all earlier candidates are strictly heavier, all later ones at
least as heavy. -/
theorem C8_medium_priority_least_loaded (agents : List HyperAgent) (wl : String → Nat)
    (rrIndex : Nat) (taskType : String) (priority : Nat)
    (hne : agents ≠ []) (hact : ∀ a ∈ agents, a.status = "active")
    (hp3 : 3 ≤ priority) (hp5 : priority < 5) :
    (∀ a ∈ agents, (a ∈ capableAgents agents taskType ↔
        (7 : Rat)/10 ≤ avgCapability a taskType)) ∧
    (capableAgents agents taskType = [] →
        candidatePool agents taskType = agents) ∧
    ∃ pre b post,
      (selectAgentForTask agents wl rrIndex taskType priority).1 = some b ∧
      candidatePool agents taskType = pre ++ b :: post ∧
      (∀ a ∈ pre, wl b.id < wl a.id) ∧
      (∀ a ∈ post, wl b.id ≤ wl a.id) := by
  refine ⟨?_, ?_, ?_⟩
  · intro a ha
    constructor
    · intro hmem
      have := (List.mem_filter.mp hmem).2
      exact of_decide_eq_true this
    · intro hcap
      exact List.mem_filter.mpr ⟨ha, decide_eq_true hcap⟩
  · intro h
    unfold candidatePool
    simp [h]
  · have hroute := selectAgentForTask_mid agents wl rrIndex taskType priority hne hact hp3 hp5
    rw [hroute]
    have hpool := candidatePool_ne_nil agents taskType hne
    rcases pickFirstMin_spec wl (candidatePool agents taskType) hpool with
      ⟨pre, b, post, heq, hsplit, hpre, hpost⟩
    exact ⟨pre, b, post, heq, hsplit, hpre, hpost⟩

/-- Witness for C8 on a concrete two-agent pool where the second agent is less
loaded. -/
theorem C8_medium_priority_least_loaded_witness :
    (∀ a ∈ [c1AgentLow, c1AgentHigh], (a ∈ capableAgents [c1AgentLow, c1AgentHigh] "general" ↔
        (7 : Rat)/10 ≤ avgCapability a "general")) ∧
    (capableAgents [c1AgentLow, c1AgentHigh] "general" = [] →
        candidatePool [c1AgentLow, c1AgentHigh] "general" = [c1AgentLow, c1AgentHigh]) ∧
    ∃ pre b post,
      (selectAgentForTask [c1AgentLow, c1AgentHigh]
        (fun i => if i == "c1a" then 4 else 1) 0 "general" 3).1 = some b ∧
      candidatePool [c1AgentLow, c1AgentHigh] "general" = pre ++ b :: post ∧
      (∀ a ∈ pre, (fun i => if i == "c1a" then 4 else 1) b.id <
        (fun i => if i == "c1a" then 4 else 1) a.id) ∧
      (∀ a ∈ post, (fun i => if i == "c1a" then 4 else 1) b.id ≤
        (fun i => if i == "c1a" then 4 else 1) a.id) :=
  C8_medium_priority_least_loaded [c1AgentLow, c1AgentHigh]
    (fun i => if i == "c1a" then 4 else 1) 0 "general" 3
    (by simp) (by with_unfolding_all decide) (by decide) (by decide)

/-! ## Round-robin selection -/

/-- A non-empty list is not `isEmpty`. -/
theorem isEmpty_false_of_ne_nil {α : Type} {l : List α} (h : l ≠ []) :
    l.isEmpty = false := by
  cases l with
  | nil => exact absurd rfl h
  | cons a rest => rfl

/-- Routing: a priority-below-3 dispatch over an all-active, non-empty agents
list runs the round-robin policy. -/
theorem selectAgentForTask_low (agents : List HyperAgent) (wl : String → Nat)
    (rrIndex : Nat) (taskType : String) (priority : Nat)
    (hne : agents ≠ []) (hact : ∀ a ∈ agents, a.status = "active")
    (hp : priority < 3) :
    selectAgentForTask agents wl rrIndex taskType priority =
      selectRoundRobinAgent agents rrIndex := by
  have hfilter := activeFilter_eq_self agents hact
  have hne' := isEmpty_false_of_ne_nil hne
  have h5 : ¬ 5 ≤ priority := by omega
  have h3 : ¬ 3 ≤ priority := by omega
  simp [selectAgentForTask, hfilter, hne', h5, h3]

/-- Iterate `_select_round_robin_agent` a given number of times over a fixed
agents list, collecting the selected agents and threading the shared cursor. -/
def runRoundRobin (agents : List HyperAgent) : Nat → Nat → List HyperAgent × Nat
  | rrIndex, 0 => ([], rrIndex)
  | rrIndex, k + 1 =>
    match selectRoundRobinAgent agents rrIndex with
    | (some a, rrIndex') =>
      let r := runRoundRobin agents rrIndex' k
      (a :: r.1, r.2)
    | (none, rrIndex') => runRoundRobin agents rrIndex' k

/-- Over a non-empty list each single round-robin selection returns the agent
at the cursor modulo the length and advances the cursor by exactly one. -/
theorem selectRoundRobinAgent_eq (agents : List HyperAgent) (rrIndex : Nat)
    (hne : agents ≠ []) :
    selectRoundRobinAgent agents rrIndex =
      (agents.get? (rrIndex % agents.length), rrIndex + 1) := by
  simp [selectRoundRobinAgent, isEmpty_false_of_ne_nil hne]

/-- After `k` round-robin selections the shared cursor has advanced by `k`. -/
theorem runRoundRobin_cursor (agents : List HyperAgent) (hne : agents ≠ []) :
    ∀ (k rrIndex : Nat), (runRoundRobin agents rrIndex k).2 = rrIndex + k := by
  intro k
  induction k with
  | zero => intro rr; simp [runRoundRobin]
  | succ k ih =>
    intro rr
    have hlen : 0 < agents.length := List.length_pos.mpr hne
    have hget : ∃ a, agents.get? (rr % agents.length) = some a :=
      ⟨_, List.get?_eq_get (Nat.mod_lt rr hlen)⟩
    rcases hget with ⟨a, ha⟩
    simp only [runRoundRobin, selectRoundRobinAgent_eq agents rr hne, ha]
    rw [ih (rr + 1)]
    omega

/-- The `i`-th of `k` round-robin selections is the agent at index
`(cursor + i) mod length`. -/
theorem runRoundRobin_get? (agents : List HyperAgent) (hne : agents ≠ []) :
    ∀ (k rrIndex i : Nat), i < k →
      (runRoundRobin agents rrIndex k).1.get? i =
        agents.get? ((rrIndex + i) % agents.length) := by
  intro k
  induction k with
  | zero => intro rr i h; omega
  | succ k ih =>
    intro rr i hik
    have hlen : 0 < agents.length := List.length_pos.mpr hne
    have hget : ∃ a, agents.get? (rr % agents.length) = some a :=
      ⟨_, List.get?_eq_get (Nat.mod_lt rr hlen)⟩
    rcases hget with ⟨a, ha⟩
    simp only [runRoundRobin, selectRoundRobinAgent_eq agents rr hne, ha]
    cases i with
    | zero => simpa using ha.symm
    | succ i =>
      have hik' : i < k := by omega
      have := ih (rr + 1) i hik'
      simp only [List.get?_cons_succ, this]
      have harg : rr + 1 + i = rr + (i + 1) := by omega
      rw [harg]

/-- `k` round-robin selections over a non-empty list produce `k` agents. -/
theorem runRoundRobin_length (agents : List HyperAgent) (hne : agents ≠ []) :
    ∀ (k rrIndex : Nat), (runRoundRobin agents rrIndex k).1.length = k := by
  intro k
  induction k with
  | zero => intro rr; simp [runRoundRobin]
  | succ k ih =>
    intro rr
    have hlen : 0 < agents.length := List.length_pos.mpr hne
    have hget : ∃ a, agents.get? (rr % agents.length) = some a :=
      ⟨_, List.get?_eq_get (Nat.mod_lt rr hlen)⟩
    rcases hget with ⟨a, ha⟩
    simp only [runRoundRobin, selectRoundRobinAgent_eq agents rr hne, ha,
      List.length_cons, ih (rr + 1)]

/-- C7: for a fixed non-empty list of `N` active executors and any starting
cursor, a priority-below-3 dispatch routes to round-robin, and `N` consecutive
round-robin selections pick exactly the rotation of the executor list starting
at index `cursor mod N` (hence each executor exactly once, in cyclic order),
while the shared cursor advances by exactly one per selection. -/
theorem C7_round_robin_cycle (agents : List HyperAgent) (wl : String → Nat)
    (rrIndex : Nat) (taskType : String) (priority : Nat)
    (hne : agents ≠ []) (hact : ∀ a ∈ agents, a.status = "active")
    (hp : priority < 3) :
    selectAgentForTask agents wl rrIndex taskType priority =
      selectRoundRobinAgent agents rrIndex ∧
    (runRoundRobin agents rrIndex agents.length).1 =
      agents.rotate (rrIndex % agents.length) ∧
    ((runRoundRobin agents rrIndex agents.length).1).Perm agents ∧
    (∀ i, i < agents.length →
      (runRoundRobin agents rrIndex agents.length).1.get? i =
        agents.get? ((rrIndex + i) % agents.length)) ∧
    (∀ k, (runRoundRobin agents rrIndex k).2 = rrIndex + k) := by
  have hlen : 0 < agents.length := List.length_pos.mpr hne
  have hrot : (runRoundRobin agents rrIndex agents.length).1 =
      agents.rotate (rrIndex % agents.length) := by
    apply List.ext_get?'
    intro n hn
    have hmax : max (runRoundRobin agents rrIndex agents.length).1.length
        (agents.rotate (rrIndex % agents.length)).length = agents.length := by
      rw [runRoundRobin_length agents hne, List.length_rotate]
      simp
    rw [hmax] at hn
    rw [runRoundRobin_get? agents hne agents.length rrIndex n hn,
      List.get?_rotate hn, Nat.add_mod_mod, Nat.add_comm rrIndex n]
  refine ⟨selectAgentForTask_low agents wl rrIndex taskType priority hne hact hp,
    hrot, ?_, runRoundRobin_get? agents hne agents.length rrIndex,
    fun k => runRoundRobin_cursor agents hne k rrIndex⟩
  rw [hrot]
  exact List.rotate_perm agents (rrIndex % agents.length)

/-- Witness for C7 on a concrete two-agent pool starting at cursor 3. -/
theorem C7_round_robin_cycle_witness :
    selectAgentForTask [c1AgentLow, c1AgentHigh] (fun _ => 0) 3 "general" 1 =
      selectRoundRobinAgent [c1AgentLow, c1AgentHigh] 3 ∧
    (runRoundRobin [c1AgentLow, c1AgentHigh] 3 2).1 =
      [c1AgentLow, c1AgentHigh].rotate (3 % 2) ∧
    ((runRoundRobin [c1AgentLow, c1AgentHigh] 3 2).1).Perm [c1AgentLow, c1AgentHigh] ∧
    (∀ i, i < 2 →
      (runRoundRobin [c1AgentLow, c1AgentHigh] 3 2).1.get? i =
        [c1AgentLow, c1AgentHigh].get? ((3 + i) % 2)) ∧
    (∀ k, (runRoundRobin [c1AgentLow, c1AgentHigh] 3 k).2 = 3 + k) :=
  C7_round_robin_cycle [c1AgentLow, c1AgentHigh] (fun _ => 0) 3 "general" 1
    (by simp) (by with_unfolding_all decide) (by decide)

/-! ## Worker loop workload bookkeeping (`AgentPool._worker`)

A worker dispatches a task to the selected agent (incrementing
`agent_workloads[agent.id]`), awaits the result, and decrements the counter
again whether the result was a success or a failure.  We model the observable
workload events of the (single-threaded, cooperatively scheduled) worker group
as a trace of dispatch/completion events per agent id. -/

/-- One workload event of the worker loops. -/
inductive PoolEvent where
  | dispatch (agentId : String)
  | complete (agentId : String)
  deriving Repr, DecidableEq

/-- Number of dispatches to agent `i` in a trace. -/
def dispatchCount (es : List PoolEvent) (i : String) : Nat :=
  es.countP (fun e => e == PoolEvent.dispatch i)

/-- Number of completions (successful or failed) recorded for agent `i`. -/
def completeCount (es : List PoolEvent) (i : String) : Nat :=
  es.countP (fun e => e == PoolEvent.complete i)

/-- Effect of one event on the workload table: dispatch increments the agent's
counter, completion decrements it (`+= 1` / `-= 1` in `_worker`). -/
def applyEvent (wl : String → Int) : PoolEvent → (String → Int)
  | PoolEvent.dispatch i => fun j => if j = i then wl j + 1 else wl j
  | PoolEvent.complete i => fun j => if j = i then wl j - 1 else wl j

/-- Workload table after a trace, starting from the all-zero table a fresh
pool has. -/
def workloadAfter (es : List PoolEvent) : String → Int :=
  es.foldl applyEvent (fun _ => 0)

/-- A trace is valid when every completion matches an earlier dispatch: in
every prefix no agent has more completions than dispatches. -/
def validTrace (es : List PoolEvent) : Prop :=
  ∀ n i, completeCount (es.take n) i ≤ dispatchCount (es.take n) i

/-- Folding the event effects from any table adds the dispatch count and
subtracts the completion count. -/
theorem foldl_applyEvent (es : List PoolEvent) :
    ∀ (wl : String → Int) (i : String),
      es.foldl applyEvent wl i = wl i + dispatchCount es i - completeCount es i := by
  induction es with
  | nil => intro wl i; simp [dispatchCount, completeCount]
  | cons e rest ih =>
    intro wl i
    rw [List.foldl_cons, ih (applyEvent wl e) i]
    have hd : dispatchCount (e :: rest) i =
        dispatchCount rest i + (if e == PoolEvent.dispatch i then 1 else 0) := by
      simp [dispatchCount, List.countP_cons]
    have hc : completeCount (e :: rest) i =
        completeCount rest i + (if e == PoolEvent.complete i then 1 else 0) := by
      simp [completeCount, List.countP_cons]
    rw [hd, hc]
    cases e with
    | dispatch j =>
      by_cases hj : i = j
      · subst hj
        simp [applyEvent]
        omega
      · have h1 : (PoolEvent.dispatch j == PoolEvent.dispatch i) = false := by
          simp [beq_eq_false_iff_ne]
          exact fun h => hj h.symm
        have h2 : (PoolEvent.dispatch j == PoolEvent.complete i) = false := by simp
        simp [applyEvent, hj, h1, h2]
    | complete j =>
      by_cases hj : i = j
      · subst hj
        simp [applyEvent]
        omega
      · have h1 : (PoolEvent.complete j == PoolEvent.complete i) = false := by
          simp [beq_eq_false_iff_ne]
          exact fun h => hj h.symm
        have h2 : (PoolEvent.complete j == PoolEvent.dispatch i) = false := by simp
        simp [applyEvent, hj, h1, h2]

/-- C2: along any valid trace the workload counter of every agent equals the
number of tasks dispatched to it and not yet completed or failed, it is never
negative at any point of the trace, and whenever the k dispatches to an agent
have all been matched by completions — in any interleaving — the counter is
back to exactly 0. -/
theorem C2_workload_conservation (es : List PoolEvent) (i : String)
    (hv : validTrace es) :
    workloadAfter es i = (dispatchCount es i : Int) - (completeCount es i : Int) ∧
    (∀ n, 0 ≤ workloadAfter (es.take n) i) ∧
    (∀ k, dispatchCount es i = k → completeCount es i = k →
      workloadAfter es i = 0) := by
  have key : ∀ l : List PoolEvent, workloadAfter l i =
      (dispatchCount l i : Int) - (completeCount l i : Int) := by
    intro l
    have := foldl_applyEvent l (fun _ => 0) i
    simpa [workloadAfter] using this
  refine ⟨key es, ?_, ?_⟩
  · intro n
    rw [key (es.take n)]
    have := hv n i
    omega
  · intro k hd hc
    rw [key es, hd, hc]
    omega

/-- Witness for C2: two overlapping dispatches to one agent, with the
completions interleaved with a dispatch to another agent. -/
def c2Trace : List PoolEvent :=
  [PoolEvent.dispatch "w1", PoolEvent.dispatch "w1", PoolEvent.complete "w1",
   PoolEvent.dispatch "w2", PoolEvent.complete "w1", PoolEvent.complete "w2"]

/-- The agent id an event concerns. -/
def eventAgentId : PoolEvent → String
  | PoolEvent.dispatch i => i
  | PoolEvent.complete i => i

/-- An agent mentioned by no event of a trace has zero counts there. -/
theorem counts_zero_of_not_mem (l : List PoolEvent) (i : String)
    (h : i ∉ l.map eventAgentId) :
    dispatchCount l i = 0 ∧ completeCount l i = 0 := by
  constructor
  · apply List.countP_eq_zero.mpr
    intro e he
    simp only [beq_iff_eq]
    intro heq
    subst heq
    exact h (List.mem_map.mpr ⟨_, he, rfl⟩)
  · apply List.countP_eq_zero.mpr
    intro e he
    simp only [beq_iff_eq]
    intro heq
    subst heq
    exact h (List.mem_map.mpr ⟨_, he, rfl⟩)

/-- Trace validity follows from the (decidable) bounded check over the proper
prefixes and the mentioned agent ids. -/
theorem validTrace_of_check (es : List PoolEvent)
    (h : ∀ n < es.length, ∀ i ∈ es.map eventAgentId,
      completeCount (es.take n) i ≤ dispatchCount (es.take n) i)
    (hfull : ∀ i ∈ es.map eventAgentId,
      completeCount es i ≤ dispatchCount es i) :
    validTrace es := by
  intro n i
  by_cases hmem : i ∈ es.map eventAgentId
  · by_cases hn : n < es.length
    · exact h n hn i hmem
    · rw [List.take_of_length_le (by omega)]
      exact hfull i hmem
  · have hsub : i ∉ (es.take n).map eventAgentId := by
      intro hmem'
      apply hmem
      rcases List.mem_map.mp hmem' with ⟨e, he, rfl⟩
      exact List.mem_map.mpr ⟨e, List.mem_of_mem_take he, rfl⟩
    rw [(counts_zero_of_not_mem _ _ hsub).2]
    exact Nat.zero_le _

theorem C2_workload_conservation_witness :
    workloadAfter c2Trace "w1" =
      (dispatchCount c2Trace "w1" : Int) - (completeCount c2Trace "w1" : Int) ∧
    (∀ n, 0 ≤ workloadAfter (c2Trace.take n) "w1") ∧
    (∀ k, dispatchCount c2Trace "w1" = k → completeCount c2Trace "w1" = k →
      workloadAfter c2Trace "w1" = 0) :=
  C2_workload_conservation c2Trace "w1"
    (validTrace_of_check c2Trace (by decide) (by decide))

/-! ## Pool lifecycle (`AgentPool.create_agent`, `remove_agent`, `_optimize_pool`)

The pool's dictionaries are modelled as insertion-ordered association lists
(Python dicts preserve insertion order and hold each key once).  Assignment to
an existing key replaces in place, assignment to a fresh key appends, and
`del`/`pop` removes the single binding of the key. -/

/-- The pool state observed by the lifecycle claims. -/
structure PoolState where
  agents : List (String × HyperAgent)
  agent_workloads : List (String × Int)
  tasks_in_queue : Nat
  optimization_cycles : Nat
  is_running : Bool
  deriving Repr, DecidableEq

/-- Dict assignment `d[k] = v`: replace the binding in place if the key
exists, append otherwise. -/
def upsert {α : Type} (l : List (String × α)) (k : String) (v : α) :
    List (String × α) :=
  if l.any (fun p => p.1 == k) then
    l.map (fun p => if p.1 == k then (k, v) else p)
  else l ++ [(k, v)]

/-- Dict deletion `del d[k]`: drop the binding of the key. -/
def eraseKey {α : Type} (l : List (String × α)) (k : String) :
    List (String × α) :=
  l.eraseP (fun p => p.1 == k)

/-- Display names of the pool members. -/
def agentNames (st : PoolState) : List String :=
  st.agents.map (fun p => p.2.name)

/-- Keys of the pool's agent map. -/
def agentKeys (st : PoolState) : List String :=
  st.agents.map (fun p => p.1)

/-- Keys of the pool's workload map. -/
def workloadKeys (st : PoolState) : List String :=
  st.agent_workloads.map (fun p => p.1)

/-- Agents currently in status `"active"`. -/
def activeAgentCount (st : PoolState) : Nat :=
  (st.agents.filter (fun p => p.2.status == "active")).length

/-- A freshly initialized `HyperAgent`: active status, the base capability
vector, success rate 1, no completed tasks, learning rate `0.01`. -/
def mkHyperAgent (freshId name agentType : String) : HyperAgent :=
  { id := freshId, name := name, agent_type := agentType, status := "active",
    capabilities := initialCapabilities, success_rate := 1,
    tasks_completed := 0, learning_rate := 1/100 }

/-- `AgentPool.create_agent`: refuse at the max-agents cap or on a duplicate
display name, otherwise add the agent with a zero workload entry.  The fresh
uuid is an explicit argument. -/
def create_agent (maxAgents : Nat) (st : PoolState)
    (freshId name agentType : String) : Except String PoolState :=
  if maxAgents ≤ st.agents.length then
    Except.error "Maximum agent limit reached"
  else if (agentNames st).contains name then
    Except.error "Agent with this name already exists"
  else
    let agent := mkHyperAgent freshId name agentType
    Except.ok { st with agents := upsert st.agents freshId agent,
                        agent_workloads := upsert st.agent_workloads freshId 0 }

/-- `AgentPool.remove_agent`: report `false` for an unknown id, otherwise drop
the agent and its workload entry and report `true`. -/
def remove_agent (st : PoolState) (agentId : String) : Bool × PoolState :=
  if st.agents.any (fun p => p.1 == agentId) then
    (true, { st with agents := eraseKey st.agents agentId,
                     agent_workloads := eraseKey st.agent_workloads agentId })
  else (false, st)

/-- The removal condition of `_remove_underperforming_agents` that depends on
the agent alone: success rate below `0.3` and more than 10 completed tasks. -/
def underperforming (a : HyperAgent) : Bool :=
  decide (a.success_rate < (3 : Rat)/10) && decide (10 < a.tasks_completed)

/-- Loop of `_remove_underperforming_agents` over a snapshot of the agent
list; the pool-size floor `len(self.agents) > 3` is re-read from the live
state before each removal. -/
def removeUnderperformingGo : PoolState → List (String × HyperAgent) → PoolState
  | st, [] => st
  | st, (i, a) :: rest =>
    if underperforming a && decide (3 < st.agents.length) then
      removeUnderperformingGo (remove_agent st i).2 rest
    else
      removeUnderperformingGo st rest

/-- `AgentPool._remove_underperforming_agents`. -/
def removeUnderperformingAgents (st : PoolState) : PoolState :=
  removeUnderperformingGo st st.agents

/-- `AgentPool._optimize_agent_capabilities`: boost the learning rate of every
agent whose success rate is below `0.7` (capped at `0.1`). -/
def optimizeAgentCapabilities (st : PoolState) : PoolState :=
  { st with agents := st.agents.map (fun p =>
      if p.2.success_rate < (7 : Rat)/10 then
        (p.1, { p.2 with learning_rate := min ((1 : Rat)/10) (p.2.learning_rate * (11/10)) })
      else p) }

/-- Generated name of an auto-created agent. -/
def autoAgentName (cycles : Nat) : String :=
  "auto_agent_" ++ toString cycles

/-- Scale-up step of `_optimize_pool`: if the queue length exceeds five per
pool member and the pool is not at the cap, try to create one generated-name
agent; a creation failure is swallowed (logged, not fatal). -/
def scaleUpStep (maxAgents : Nat) (st : PoolState) (freshId : String) : PoolState :=
  if st.agents.length * 5 < st.tasks_in_queue ∧ st.agents.length < maxAgents then
    match create_agent maxAgents st freshId
        (autoAgentName st.optimization_cycles) "HyperAgent" with
    | Except.ok st' => st'
    | Except.error _ => st
  else st

/-- Sweep step of `_optimize_pool`: remove underperformers only when more than
three agents remain. -/
def sweepStep (st : PoolState) : PoolState :=
  if 3 < st.agents.length then removeUnderperformingAgents st else st

/-- One cycle of `AgentPool._optimize_pool`: bump the cycle counter, then
scale up, then sweep underperformers, then adjust learning rates. -/
def optimizeCycle (maxAgents : Nat) (st : PoolState) (freshId : String) :
    PoolState :=
  optimizeAgentCapabilities (sweepStep (scaleUpStep maxAgents
    { st with optimization_cycles := st.optimization_cycles + 1 } freshId))

/-- The executor-creating and executor-removing operations of the pool. -/
inductive PoolOp where
  | createOp (freshId name agentType : String)
  | removeOp (agentId : String)
  | cycleOp (freshId : String)
  deriving Repr, DecidableEq

/-- Apply one operation; a refused creation leaves the state unchanged. -/
def applyOp (maxAgents : Nat) (st : PoolState) : PoolOp → PoolState
  | PoolOp.createOp f n t =>
    match create_agent maxAgents st f n t with
    | Except.ok st' => st'
    | Except.error _ => st
  | PoolOp.removeOp i => (remove_agent st i).2
  | PoolOp.cycleOp f => optimizeCycle maxAgents st f

/-- Apply a sequence of operations. -/
def applyOps (maxAgents : Nat) (st : PoolState) (ops : List PoolOp) : PoolState :=
  ops.foldl (applyOp maxAgents) st

/-! ## Pool lifecycle lemmas -/

/-- Keys after a dict assignment: unchanged when the key was present, the key
appended otherwise. -/
theorem upsert_keys {α : Type} (l : List (String × α)) (k : String) (v : α) :
    (upsert l k v).map Prod.fst =
      if l.any (fun p => p.1 == k) then l.map Prod.fst
      else l.map Prod.fst ++ [k] := by
  unfold upsert
  by_cases h : l.any (fun p => p.1 == k)
  · simp only [h, if_true, List.map_map]
    apply List.map_congr_left
    intro p _
    by_cases hp : p.1 == k
    · have : p.1 = k := beq_iff_eq.mp hp
      simp [Function.comp, hp, this]
    · simp [Function.comp, hp]
  · simp [h]

/-- Keys after a dict deletion: the key erased from the key list. -/
theorem eraseKey_keys {α : Type} (l : List (String × α)) (k : String) :
    (eraseKey l k).map Prod.fst = (l.map Prod.fst).eraseP (fun s => s == k) := by
  unfold eraseKey
  rw [List.eraseP_map]
  rfl

/-- Key membership tests depend only on the key list. -/
theorem any_key_eq {α : Type} (l : List (String × α)) (k : String) :
    l.any (fun p => p.1 == k) = (l.map Prod.fst).any (fun s => s == k) := by
  induction l with
  | nil => rfl
  | cons p rest ih => simp [List.any_cons, ih]

/-- A dict assignment changes the length by zero or one. -/
theorem upsert_length {α : Type} (l : List (String × α)) (k : String) (v : α) :
    (upsert l k v).length = l.length ∨
      (upsert l k v).length = l.length + 1 := by
  unfold upsert
  by_cases h : l.any (fun p => p.1 == k)
  · left; simp [h]
  · right; simp [h]

/-- Looking up the assigned key after a dict assignment yields the new value. -/
theorem lookup_upsert {α : Type} (l : List (String × α)) (k : String) (v : α) :
    (upsert l k v).lookup k = some v := by
  induction l with
  | nil => simp [upsert, List.lookup]
  | cons p rest ih =>
    by_cases hp : p.1 == k
    · have hpk : p.1 = k := beq_iff_eq.mp hp
      have hany : ((p :: rest).any fun q => q.1 == k) = true := by
        simp [List.any_cons, hp]
      simp [upsert, hany, hpk, List.lookup_cons]
    · have hp' : (p.1 == k) = false := by
        cases h2 : (p.1 == k) with
        | false => rfl
        | true => exact absurd h2 hp
      have hkp : (k == p.1) = false := by
        rw [beq_eq_false_iff_ne]
        intro h
        rw [h] at hp
        simp at hp
      by_cases hr : rest.any (fun q => q.1 == k)
      · have hany : ((p :: rest).any fun q => q.1 == k) = true := by
          simp [List.any_cons, hr]
        have ih' : (List.map (fun q => if (q.1 == k) = true then (k, v) else q) rest).lookup k = some v := by
          have := ih
          rw [upsert, hr, if_pos rfl] at this
          exact this
        simp only [upsert, hany, if_true, List.map_cons, hp', Bool.false_eq_true, if_false]
        rw [List.lookup_cons, hkp]
        exact ih'
      · have hr' : rest.any (fun q => q.1 == k) = false := by
          cases h2 : rest.any (fun q => q.1 == k) with
          | false => rfl
          | true => exact absurd h2 hr
        have hany : ((p :: rest).any fun q => q.1 == k) = false := by
          simp [List.any_cons, hp', hr']
        have ih' : (rest ++ [(k, v)]).lookup k = some v := by
          have := ih
          rw [upsert, hr', if_neg (by simp)] at this
          exact this
        simp only [upsert, hany, Bool.false_eq_true, if_false, List.cons_append]
        rw [List.lookup_cons, hkp]
        exact ih'

/-- Dict assignments with the same key to key-synchronized dicts keep the key
lists equal. -/
theorem upsert_keys_congr {α β : Type} (l : List (String × α))
    (m : List (String × β)) (k : String) (v : α) (w : β)
    (h : l.map Prod.fst = m.map Prod.fst) :
    (upsert l k v).map Prod.fst = (upsert m k w).map Prod.fst := by
  rw [upsert_keys, upsert_keys, any_key_eq, any_key_eq, h]

/-- Dict deletions with the same key keep equal key lists equal. -/
theorem eraseKey_keys_congr {α β : Type} (l : List (String × α))
    (m : List (String × β)) (k : String)
    (h : l.map Prod.fst = m.map Prod.fst) :
    (eraseKey l k).map Prod.fst = (eraseKey m k).map Prod.fst := by
  rw [eraseKey_keys, eraseKey_keys, h]

/-- The agent map and the workload map hold exactly the same keys. -/
def keysSynced (st : PoolState) : Prop :=
  agentKeys st = workloadKeys st

/-- `remove_agent` keeps the two maps key-synchronized. -/
theorem keysSynced_remove (st : PoolState) (i : String) (h : keysSynced st) :
    keysSynced (remove_agent st i).2 := by
  unfold remove_agent
  by_cases hany : st.agents.any (fun p => p.1 == i)
  · simp only [hany, if_true]
    exact eraseKey_keys_congr _ _ i h
  · simp only [hany, Bool.false_eq_true, if_false]
    exact h

/-- Characterization of a successful `create_agent`. -/
theorem create_agent_ok_iff (maxAgents : Nat) (st : PoolState)
    (f n t : String) (st' : PoolState) :
    create_agent maxAgents st f n t = Except.ok st' ↔
      (¬ maxAgents ≤ st.agents.length ∧ ¬ (agentNames st).contains n = true ∧
       st' = { st with agents := upsert st.agents f (mkHyperAgent f n t),
                       agent_workloads := upsert st.agent_workloads f 0 }) := by
  unfold create_agent
  by_cases h1 : maxAgents ≤ st.agents.length
  · rw [if_pos h1]
    constructor
    · intro hok
      exact Except.noConfusion hok
    · rintro ⟨hn1, -, -⟩
      exact absurd h1 hn1
  · rw [if_neg h1]
    by_cases h2 : (agentNames st).contains n = true
    · rw [if_pos h2]
      constructor
      · intro hok
        exact Except.noConfusion hok
      · rintro ⟨-, hn, -⟩
        exact absurd h2 hn
    · rw [if_neg h2]
      constructor
      · intro hok
        exact ⟨h1, h2, (Except.ok.inj hok).symm⟩
      · rintro ⟨-, -, hst⟩
        rw [hst]

/-- A successful `create_agent` keeps the two maps key-synchronized. -/
theorem keysSynced_create (maxAgents : Nat) (st : PoolState)
    (f n t : String) (st' : PoolState) (h : keysSynced st)
    (hok : create_agent maxAgents st f n t = Except.ok st') :
    keysSynced st' := by
  rcases (create_agent_ok_iff maxAgents st f n t st').mp hok with ⟨_, _, hst⟩
  subst hst
  exact upsert_keys_congr _ _ f _ _ h

/-- The underperformer sweep keeps the two maps key-synchronized. -/
theorem keysSynced_go : ∀ (l : List (String × HyperAgent)) (st : PoolState),
    keysSynced st → keysSynced (removeUnderperformingGo st l) := by
  intro l
  induction l with
  | nil => intro st h; exact h
  | cons p rest ih =>
    intro st h
    unfold removeUnderperformingGo
    by_cases hc : (underperforming p.2 && decide (3 < st.agents.length)) = true
    · simp only [hc, if_true]
      exact ih _ (keysSynced_remove st p.1 h)
    · simp only [hc, Bool.false_eq_true, if_false]
      exact ih _ h

/-- Learning-rate adjustment does not change any keys. -/
theorem keysSynced_capOpt (st : PoolState) (h : keysSynced st) :
    keysSynced (optimizeAgentCapabilities st) := by
  unfold keysSynced agentKeys workloadKeys at h ⊢
  unfold optimizeAgentCapabilities
  simp only
  rw [List.map_map, ← h]
  apply List.map_congr_left
  intro p _
  by_cases hcond : p.2.success_rate < (7 : Rat)/10
  · simp [Function.comp, hcond]
  · simp [Function.comp, hcond]

/-- The scale-up step keeps the two maps key-synchronized. -/
theorem keysSynced_scaleUp (maxAgents : Nat) (st : PoolState) (f : String)
    (h : keysSynced st) : keysSynced (scaleUpStep maxAgents st f) := by
  unfold scaleUpStep
  by_cases hcond : st.agents.length * 5 < st.tasks_in_queue ∧ st.agents.length < maxAgents
  · rw [if_pos hcond]
    cases hcr : create_agent maxAgents st f (autoAgentName st.optimization_cycles) "HyperAgent" with
    | ok st' => exact keysSynced_create maxAgents st _ _ _ st' h hcr
    | error e => exact h
  · rw [if_neg hcond]
    exact h

/-- The sweep guard keeps the two maps key-synchronized. -/
theorem keysSynced_sweep (st : PoolState) (h : keysSynced st) :
    keysSynced (sweepStep st) := by
  unfold sweepStep
  by_cases h3 : 3 < st.agents.length
  · rw [if_pos h3]
    exact keysSynced_go st.agents st h
  · rw [if_neg h3]
    exact h

/-- One autoscale cycle keeps the two maps key-synchronized. -/
theorem keysSynced_cycle (maxAgents : Nat) (st : PoolState) (f : String)
    (h : keysSynced st) :
    keysSynced (optimizeCycle maxAgents st f) := by
  unfold optimizeCycle
  exact keysSynced_capOpt _ (keysSynced_sweep _
    (keysSynced_scaleUp maxAgents _ f h))

/-- Every pool operation keeps the two maps key-synchronized. -/
theorem keysSynced_applyOp (maxAgents : Nat) (st : PoolState) (op : PoolOp)
    (h : keysSynced st) : keysSynced (applyOp maxAgents st op) := by
  cases op with
  | createOp f n t =>
    simp only [applyOp]
    cases hcr : create_agent maxAgents st f n t with
    | ok st' => exact keysSynced_create maxAgents st f n t st' h hcr
    | error e => exact h
  | removeOp i => exact keysSynced_remove st i h
  | cycleOp f => exact keysSynced_cycle maxAgents st f h

/-- C9: after every sequence of pool operations (create, remove, autoscale
cycle) over a state whose agent map and workload map hold the same keys, the
two maps still hold the same keys — every pool member has a workload entry and
no entry outlives its executor — and a successful `create_agent` gives the new
executor a workload entry of exactly 0. -/
theorem C9_workload_keys_sync (maxAgents : Nat) (st : PoolState)
    (ops : List PoolOp) (h : agentKeys st = workloadKeys st) :
    agentKeys (applyOps maxAgents st ops) = workloadKeys (applyOps maxAgents st ops) ∧
    (∀ (st₀ st' : PoolState) (f n t : String),
      create_agent maxAgents st₀ f n t = Except.ok st' →
      st'.agent_workloads.lookup f = some 0) := by
  constructor
  · have : ∀ (l : List PoolOp) (s : PoolState), keysSynced s →
        keysSynced (applyOps maxAgents s l) := by
      intro l
      induction l with
      | nil => intro s hs; exact hs
      | cons op rest ih =>
        intro s hs
        exact ih _ (keysSynced_applyOp maxAgents s op hs)
    exact this ops st h
  · intro st₀ st' f n t hok
    rcases (create_agent_ok_iff maxAgents st₀ f n t st').mp hok with ⟨_, _, hst⟩
    subst hst
    exact lookup_upsert _ f 0

/-- The empty initial pool. -/
def poolEmpty : PoolState :=
  { agents := [], agent_workloads := [], tasks_in_queue := 0,
    optimization_cycles := 0, is_running := true }

/-- Witness for C9: one create followed by one remove over an initially empty
pool. -/
theorem C9_workload_keys_sync_witness :
    agentKeys (applyOps 100 poolEmpty
        [PoolOp.createOp "id1" "Alpha" "HyperAgent", PoolOp.removeOp "id1"]) =
      workloadKeys (applyOps 100 poolEmpty
        [PoolOp.createOp "id1" "Alpha" "HyperAgent", PoolOp.removeOp "id1"]) ∧
    (∀ (st₀ st' : PoolState) (f n t : String),
      create_agent 100 st₀ f n t = Except.ok st' →
      st'.agent_workloads.lookup f = some 0) :=
  C9_workload_keys_sync 100 poolEmpty
    [PoolOp.createOp "id1" "Alpha" "HyperAgent", PoolOp.removeOp "id1"] rfl

/-! ## Pool size bounds (C4) and autoscale (C3) -/

/-- `remove_agent` removes at most one entry. -/
theorem remove_agent_length (st : PoolState) (i : String) :
    st.agents.length - 1 ≤ (remove_agent st i).2.agents.length ∧
    (remove_agent st i).2.agents.length ≤ st.agents.length := by
  unfold remove_agent
  by_cases hany : st.agents.any (fun p => p.1 == i)
  · simp only [hany, if_true]
    unfold eraseKey
    rw [List.length_eraseP]
    simp only [hany, if_true]
    omega
  · simp only [hany, Bool.false_eq_true, if_false]
    omega

/-- The underperformer sweep never grows the pool. -/
theorem go_length_le : ∀ (l : List (String × HyperAgent)) (st : PoolState),
    (removeUnderperformingGo st l).agents.length ≤ st.agents.length := by
  intro l
  induction l with
  | nil => intro st; exact le_refl _
  | cons p rest ih =>
    intro st
    unfold removeUnderperformingGo
    by_cases hc : (underperforming p.2 && decide (3 < st.agents.length)) = true
    · simp only [hc, if_true]
      exact le_trans (ih _) (remove_agent_length st p.1).2
    · simp only [hc, Bool.false_eq_true, if_false]
      exact ih st

/-- The underperformer sweep never drops the pool below three agents: the
`len(self.agents) > 3` guard is re-read before every removal. -/
theorem go_floor : ∀ (l : List (String × HyperAgent)) (st : PoolState),
    3 ≤ st.agents.length → 3 ≤ (removeUnderperformingGo st l).agents.length := by
  intro l
  induction l with
  | nil => intro st h; exact h
  | cons p rest ih =>
    intro st h
    unfold removeUnderperformingGo
    by_cases hc : (underperforming p.2 && decide (3 < st.agents.length)) = true
    · simp only [hc, if_true]
      apply ih
      have h3 : 3 < st.agents.length := by
        simp only [Bool.and_eq_true] at hc
        exact of_decide_eq_true hc.2
      have := (remove_agent_length st p.1).1
      omega
    · simp only [hc, Bool.false_eq_true, if_false]
      exact ih st h

/-- Learning-rate adjustment keeps the agent count. -/
theorem capOpt_length (st : PoolState) :
    (optimizeAgentCapabilities st).agents.length = st.agents.length := by
  simp [optimizeAgentCapabilities]

/-- A successful creation grows the pool by at most one and only below the
cap. -/
theorem create_ok_length (maxAgents : Nat) (st : PoolState)
    (f n t : String) (st' : PoolState)
    (hok : create_agent maxAgents st f n t = Except.ok st') :
    st'.agents.length ≤ st.agents.length + 1 ∧ st.agents.length < maxAgents := by
  rcases (create_agent_ok_iff maxAgents st f n t st').mp hok with ⟨h1, -, hst⟩
  subst hst
  rcases upsert_length st.agents f (mkHyperAgent f n t) with h | h <;>
    (constructor
     · simp only [h]
       omega
     · omega)

/-- Every pool operation respects the `max_agents` cap. -/
theorem applyOp_length_le (maxAgents : Nat) (st : PoolState) (op : PoolOp)
    (h : st.agents.length ≤ maxAgents) :
    (applyOp maxAgents st op).agents.length ≤ maxAgents := by
  cases op with
  | createOp f n t =>
    simp only [applyOp]
    cases hcr : create_agent maxAgents st f n t with
    | ok st' =>
      show st'.agents.length ≤ maxAgents
      have := create_ok_length maxAgents st f n t st' hcr
      omega
    | error e => exact h
  | removeOp i =>
    simp only [applyOp]
    have := (remove_agent_length st i).2
    omega
  | cycleOp f =>
    simp only [applyOp]
    unfold optimizeCycle
    set st1 : PoolState := { st with optimization_cycles := st.optimization_cycles + 1 }
    have h1 : st1.agents.length ≤ maxAgents := h
    have h2 : (scaleUpStep maxAgents st1 f).agents.length ≤ maxAgents := by
      unfold scaleUpStep
      by_cases hcond : st1.agents.length * 5 < st1.tasks_in_queue ∧ st1.agents.length < maxAgents
      · rw [if_pos hcond]
        cases hcr : create_agent maxAgents st1 f (autoAgentName st1.optimization_cycles) "HyperAgent" with
        | ok st' =>
          show st'.agents.length ≤ maxAgents
          have := create_ok_length maxAgents st1 _ _ _ st' hcr
          omega
        | error e => exact h1
      · rw [if_neg hcond]
        exact h1
    rw [capOpt_length]
    unfold sweepStep
    by_cases h3 : 3 < (scaleUpStep maxAgents st1 f).agents.length
    · rw [if_pos h3]
      exact le_trans (go_length_le _ _) h2
    · rw [if_neg h3]
      exact h2

/-- C4 (amended): while the pool is running, every sequence of pool operations
(create, remove, autoscale cycle) keeps the executor count at or below the
configured `max_agents`; and the autoscaler's underperformer removal on its own
never drops the count below the floor of 3.  (Direct `remove_agent` is not
floor-guarded — see the counterexample.) -/
theorem C4_bounds (maxAgents : Nat) (st : PoolState) (ops : List PoolOp)
    (h : st.agents.length ≤ maxAgents) :
    (applyOps maxAgents st ops).agents.length ≤ maxAgents ∧
    (∀ st' : PoolState, 3 ≤ st'.agents.length →
      3 ≤ (removeUnderperformingAgents st').agents.length) := by
  constructor
  · have : ∀ (l : List PoolOp) (s : PoolState), s.agents.length ≤ maxAgents →
        (applyOps maxAgents s l).agents.length ≤ maxAgents := by
      intro l
      induction l with
      | nil => intro s hs; exact hs
      | cons op rest ih =>
        intro s hs
        exact ih _ (applyOp_length_le maxAgents s op hs)
    exact this ops st h
  · intro st' h3
    exact go_floor st'.agents st' h3

/-- A pool holding exactly three healthy agents, all active, in a running
state. -/
def poolThree : PoolState :=
  { agents := [("a1", mkHyperAgent "a1" "A1" "HyperAgent"),
               ("a2", mkHyperAgent "a2" "A2" "HyperAgent"),
               ("a3", mkHyperAgent "a3" "A3" "HyperAgent")],
    agent_workloads := [("a1", 0), ("a2", 0), ("a3", 0)],
    tasks_in_queue := 0, optimization_cycles := 0, is_running := true }

/-- Witness for C4 on a concrete operation sequence from the three-agent
pool. -/
theorem C4_bounds_witness :
    (applyOps 100 poolThree
        [PoolOp.createOp "a4" "A4" "HyperAgent", PoolOp.cycleOp "a5"]).agents.length ≤ 100 ∧
    (∀ st' : PoolState, 3 ≤ st'.agents.length →
      3 ≤ (removeUnderperformingAgents st').agents.length) :=
  C4_bounds 100 poolThree [PoolOp.createOp "a4" "A4" "HyperAgent", PoolOp.cycleOp "a5"]
    (by decide)

/-- C4 counterexample: the claim also asserts a lower floor of 3 under every
sequence of creating and removing operations, but `remove_agent` has no floor
guard: removing an agent from a running three-agent pool leaves only two. -/
theorem C4_counterexample :
    poolThree.is_running = true ∧ poolThree.agents.length = 3 ∧
    (remove_agent poolThree "a1").2.agents.length = 2 ∧ ¬ (3 : Nat) ≤ 2 := by
  refine ⟨rfl, rfl, ?_, by decide⟩
  with_unfolding_all decide

/-- A sweep over a snapshot without underperformers changes nothing. -/
theorem go_noop : ∀ (l : List (String × HyperAgent)) (st : PoolState),
    (∀ p ∈ l, underperforming p.2 = false) →
    removeUnderperformingGo st l = st := by
  intro l
  induction l with
  | nil => intro st _; rfl
  | cons p rest ih =>
    intro st h
    unfold removeUnderperformingGo
    have hp : underperforming p.2 = false := h p (List.mem_cons_self p rest)
    rw [hp]
    simp only [Bool.false_and, Bool.false_eq_true, if_false]
    exact ih st (fun q hq => h q (List.mem_cons_of_mem p hq))

/-- A freshly created agent is never underperforming: it has completed zero
tasks. -/
theorem mkHyperAgent_not_underperforming (f n t : String) :
    underperforming (mkHyperAgent f n t) = false := by
  have h10 : decide (10 < (mkHyperAgent f n t).tasks_completed) = false := by rfl
  unfold underperforming
  rw [h10, Bool.and_false]

/-- C3 (amended): in an autoscale cycle where the queue length exceeds the
total pool size times 5 and the total pool size is below `max_agents` (the
code compares against the total agent count, not the active count), provided
the generated name is unused, the fresh id is new and no agent is removable as
an underperformer, exactly one new executor is created in that cycle. -/
theorem C3_scale_up_adds_one (maxAgents : Nat) (st : PoolState) (freshId : String)
    (hq : st.agents.length * 5 < st.tasks_in_queue)
    (hmax : st.agents.length < maxAgents)
    (hname : (agentNames st).contains (autoAgentName (st.optimization_cycles + 1)) = false)
    (hfresh : st.agents.any (fun p => p.1 == freshId) = false)
    (hnorem : ∀ p ∈ st.agents, underperforming p.2 = false) :
    (optimizeCycle maxAgents st freshId).agents.length = st.agents.length + 1 := by
  unfold optimizeCycle
  set st1 : PoolState := { st with optimization_cycles := st.optimization_cycles + 1 } with hst1
  have hag1 : st1.agents = st.agents := rfl
  have hcy1 : st1.optimization_cycles = st.optimization_cycles + 1 := rfl
  set newAgent := mkHyperAgent freshId (autoAgentName st1.optimization_cycles) "HyperAgent" with hnew
  set stNew : PoolState := { st1 with
      agents := upsert st1.agents freshId newAgent,
      agent_workloads := upsert st1.agent_workloads freshId 0 } with hstNew
  have hagNew : stNew.agents = st.agents ++ [(freshId, newAgent)] := by
    rw [hstNew]
    simp only [hag1]
    unfold upsert
    rw [hfresh]
    simp
  have hlenNew : stNew.agents.length = st.agents.length + 1 := by
    rw [hagNew]
    simp
  have hscale : scaleUpStep maxAgents st1 freshId = stNew := by
    unfold scaleUpStep
    have hcond : st1.agents.length * 5 < st1.tasks_in_queue ∧ st1.agents.length < maxAgents :=
      ⟨hq, hmax⟩
    rw [if_pos hcond]
    have hok : create_agent maxAgents st1 freshId (autoAgentName st1.optimization_cycles) "HyperAgent" =
        Except.ok stNew := by
      apply (create_agent_ok_iff maxAgents st1 freshId _ "HyperAgent" stNew).mpr
      refine ⟨by omega, ?_, rfl⟩
      have hnm : agentNames st1 = agentNames st := rfl
      rw [hnm, hcy1, hname]
      simp
    rw [hok]
  have hnoremNew : ∀ p ∈ stNew.agents, underperforming p.2 = false := by
    intro p hp
    rw [hagNew] at hp
    rcases List.mem_append.mp hp with hp' | hp'
    · exact hnorem p hp'
    · rcases List.mem_singleton.mp hp' with rfl
      exact mkHyperAgent_not_underperforming _ _ _
  have hsweep : sweepStep stNew = stNew := by
    unfold sweepStep
    have hnoop : removeUnderperformingAgents stNew = stNew :=
      go_noop stNew.agents stNew hnoremNew
    by_cases h3 : 3 < stNew.agents.length
    · rw [if_pos h3, hnoop]
    · rw [if_neg h3]
  rw [hscale, hsweep, capOpt_length, hlenNew]

/-- A pool of three agents, one of them inactive, with a queue of 11 tasks:
the claim's scale-up condition holds for the two active executors, but the
code's (total-count-based) condition does not. -/
def poolTwoActive : PoolState :=
  { agents := [("a1", mkHyperAgent "a1" "A1" "HyperAgent"),
               ("a2", mkHyperAgent "a2" "A2" "HyperAgent"),
               ("a3", { mkHyperAgent "a3" "A3" "HyperAgent" with status := "inactive" })],
    agent_workloads := [("a1", 0), ("a2", 0), ("a3", 0)],
    tasks_in_queue := 11, optimization_cycles := 0, is_running := true }

/-- C3 counterexample: with 2 active executors, queue length 11 > 2 × 5 and
the maximum far above, the claim demands that the autoscale cycle create one
executor (count 3 → 4 members, 3 active); the code compares the queue against
the *total* pool size (3 × 5 = 15 ≥ 11) and creates none. -/
theorem C3_counterexample :
    activeAgentCount poolTwoActive = 2 ∧
    activeAgentCount poolTwoActive * 5 < poolTwoActive.tasks_in_queue ∧
    activeAgentCount poolTwoActive < 100 ∧
    poolTwoActive.agents.length = 3 ∧
    (optimizeCycle 100 poolTwoActive "freshC3").agents.length = 3 := by
  refine ⟨?_, ?_, ?_, ?_, ?_⟩ <;> with_unfolding_all decide

/-- Witness for C3 (amended) on a three-agent pool with a 16-task backlog. -/
theorem C3_scale_up_adds_one_witness :
    (optimizeCycle 100 { poolThree with tasks_in_queue := 16 } "a9").agents.length =
      { poolThree with tasks_in_queue := 16 }.agents.length + 1 :=
  C3_scale_up_adds_one 100 { poolThree with tasks_in_queue := 16 } "a9"
    (by decide) (by decide) (by with_unfolding_all decide)
    (by with_unfolding_all decide) (by with_unfolding_all decide)

/-! ## WebSocket hub (`WebSocketManager` in server.py)

Connections are identified by their id; the socket objects are abstracted and
whether a send to a given connection succeeds is an explicit parameter.
Timestamps are naturals. -/

/-- Per-connection metadata: last heartbeat (`last_ping`) and the
connection's subscribed topics. -/
structure ConnMeta where
  last_ping : Nat
  subs : List String
  deriving Repr, DecidableEq

/-- The registries of `WebSocketManager`: the connection map (ids of live
sockets), the per-connection metadata and the topic → subscriber-ids index. -/
structure WSState where
  connections : List String
  connection_metadata : List (String × ConnMeta)
  subscriptions : List (String × List String)
  deriving Repr, DecidableEq

/-- `WebSocketManager._cleanup_connection`: discard the id from every topic's
subscriber set and drop the connection and its metadata. -/
def cleanupConnection (st : WSState) (cid : String) : WSState :=
  { connections := st.connections.filter (fun c => c != cid),
    connection_metadata := st.connection_metadata.filter (fun p => p.1 != cid),
    subscriptions := st.subscriptions.map (fun p => (p.1, p.2.filter (fun c => c != cid))) }

/-- Staleness test of `_cleanup_connections`:
`now - last_ping > heartbeat * 3`. -/
def isStale (heartbeat now lastPing : Nat) : Bool :=
  decide (heartbeat * 3 < now - lastPing)

/-- The stale connection ids collected by one sweep. -/
def staleConnections (heartbeat now : Nat) (st : WSState) : List String :=
  (st.connection_metadata.filter (fun p => isStale heartbeat now p.2.last_ping)).map
    (fun p => p.1)

/-- One sweep of `WebSocketManager._cleanup_connections`: collect the stale
ids over the metadata, then clean each up. -/
def cleanupSweep (heartbeat now : Nat) (st : WSState) : WSState :=
  (staleConnections heartbeat now st).foldl cleanupConnection st

/-- A connection id that is in none of the registries. -/
def absentEverywhere (st : WSState) (cid : String) : Prop :=
  cid ∉ st.connections ∧ (∀ m, (cid, m) ∉ st.connection_metadata) ∧
  ∀ p ∈ st.subscriptions, cid ∉ p.2

/-- After cleaning up a connection it is absent from every registry. -/
theorem cleanupConnection_absent (st : WSState) (cid : String) :
    absentEverywhere (cleanupConnection st cid) cid := by
  refine ⟨?_, ?_, ?_⟩
  · intro hmem
    have := (List.mem_filter.mp hmem).2
    simp at this
  · intro m hmem
    have := (List.mem_filter.mp hmem).2
    simp at this
  · intro p hp hmem
    rcases List.mem_map.mp hp with ⟨q, _, rfl⟩
    have := (List.mem_filter.mp hmem).2
    simp at this

/-- Cleaning up one connection cannot re-introduce another. -/
theorem cleanupConnection_preserves_absent (st : WSState) (cid x : String)
    (h : absentEverywhere st cid) :
    absentEverywhere (cleanupConnection st x) cid := by
  rcases h with ⟨h1, h2, h3⟩
  refine ⟨?_, ?_, ?_⟩
  · intro hmem
    exact h1 (List.mem_of_mem_filter hmem)
  · intro m hmem
    exact h2 m (List.mem_of_mem_filter hmem)
  · intro p hp hmem
    rcases List.mem_map.mp hp with ⟨q, hq, rfl⟩
    exact h3 q hq (List.mem_of_mem_filter hmem)

/-- Folding cleanups never re-introduces an absent id. -/
theorem foldl_cleanup_preserves_absent :
    ∀ (l : List String) (st : WSState) (cid : String), absentEverywhere st cid →
      absentEverywhere (l.foldl cleanupConnection st) cid := by
  intro l
  induction l with
  | nil => intro st cid h; exact h
  | cons x rest ih =>
    intro st cid h
    rw [List.foldl_cons]
    exact ih _ cid (cleanupConnection_preserves_absent st cid x h)

/-- Folding cleanups over a list containing an id leaves that id absent from
every registry. -/
theorem foldl_cleanup_absent :
    ∀ (l : List String) (st : WSState) (cid : String), cid ∈ l →
      absentEverywhere (l.foldl cleanupConnection st) cid := by
  intro l
  induction l with
  | nil => intro st cid h; simp at h
  | cons x rest ih =>
    intro st cid h
    rcases List.mem_cons.mp h with rfl | h'
    · rw [List.foldl_cons]
      exact foldl_cleanup_preserves_absent rest _ cid (cleanupConnection_absent st cid)
    · rw [List.foldl_cons]
      exact ih _ cid h'

/-- C5: every connection whose last heartbeat lies more than
`heartbeat * 3` in the past at sweep time is force-removed by the sweep from
every registry: the connection map, the metadata map, and every topic's
subscriber set. -/
theorem C5_stale_sweep (heartbeat now : Nat) (st : WSState) (cid : String)
    (m : ConnMeta) (hmem : (cid, m) ∈ st.connection_metadata)
    (hstale : heartbeat * 3 < now - m.last_ping) :
    cid ∉ (cleanupSweep heartbeat now st).connections ∧
    (∀ m', (cid, m') ∉ (cleanupSweep heartbeat now st).connection_metadata) ∧
    (∀ p ∈ (cleanupSweep heartbeat now st).subscriptions, cid ∉ p.2) := by
  have hin : cid ∈ staleConnections heartbeat now st := by
    unfold staleConnections
    apply List.mem_map.mpr
    refine ⟨(cid, m), ?_, rfl⟩
    apply List.mem_filter.mpr
    exact ⟨hmem, decide_eq_true hstale⟩
  exact foldl_cleanup_absent (staleConnections heartbeat now st) st cid hin

/-- A concrete hub state: one fresh and one stale connection, both subscribed
to `pool_updates`. -/
def wsStale : WSState :=
  { connections := ["c1", "c2"],
    connection_metadata := [("c1", ⟨100, ["pool_updates"]⟩), ("c2", ⟨0, ["pool_updates"]⟩)],
    subscriptions := [("pool_updates", ["c1", "c2"])] }

/-- Witness for C5: with heartbeat 30 and now 100, connection `c2` (last ping
at 0, 100 > 90 old) is gone from every registry after the sweep. -/
theorem C5_stale_sweep_witness :
    "c2" ∉ (cleanupSweep 30 100 wsStale).connections ∧
    (∀ m', ("c2", m') ∉ (cleanupSweep 30 100 wsStale).connection_metadata) ∧
    (∀ p ∈ (cleanupSweep 30 100 wsStale).subscriptions, "c2" ∉ p.2) :=
  C5_stale_sweep 30 100 wsStale "c2" ⟨0, ["pool_updates"]⟩ (by decide) (by decide)

/-! ## Topic broadcast (`broadcast_to_topic`) -/

/-- A wire message: opaque payload tagged by `broadcast_to_topic` with the
topic and a timestamp. -/
structure WireMessage where
  payload : String
  topic : Option String
  timestamp : Nat
  deriving Repr, DecidableEq

/-- `WebSocketManager._send_to_connection`: silently skip ids without a
registered socket; on a send failure clean the connection up instead of
raising.  Returns the new state and the deliveries made. -/
def sendToConnection (sendOk : String → Bool) (st : WSState) (cid : String)
    (msg : WireMessage) : WSState × List (String × WireMessage) :=
  if st.connections.contains cid then
    if sendOk cid then (st, [(cid, msg)])
    else (cleanupConnection st cid, [])
  else (st, [])

/-- Fan-out loop of `broadcast_to_topic` over a snapshot of the topic's
subscriber set, accumulating the deliveries. -/
def broadcastGo (sendOk : String → Bool) (msg : WireMessage) :
    WSState → List (String × WireMessage) → List String →
      WSState × List (String × WireMessage)
  | st, acc, [] => (st, acc)
  | st, acc, cid :: rest =>
    let r := sendToConnection sendOk st cid msg
    broadcastGo sendOk msg r.1 (acc ++ r.2) rest

/-- `WebSocketManager.broadcast_to_topic`: a topic absent from the
subscription index is a no-op; otherwise tag the message with the topic and a
timestamp and send it to a snapshot of the topic's subscribers. -/
def broadcastToTopic (sendOk : String → Bool) (now : Nat) (st : WSState)
    (topic payload : String) : WSState × List (String × WireMessage) :=
  match st.subscriptions.lookup topic with
  | none => (st, [])
  | some subs => broadcastGo sendOk ⟨payload, some topic, now⟩ st [] subs

/-- The fan-out only appends to the accumulated deliveries. -/
theorem broadcastGo_acc_mono (sendOk : String → Bool) (msg : WireMessage) :
    ∀ (rest : List String) (st : WSState) (acc : List (String × WireMessage))
      (x : String × WireMessage), x ∈ acc →
      x ∈ (broadcastGo sendOk msg st acc rest).2 := by
  intro rest
  induction rest with
  | nil => intro st acc x h; exact h
  | cons c rest' ih =>
    intro st acc x h
    unfold broadcastGo
    exact ih _ _ x (List.mem_append.mpr (Or.inl h))

/-- A registered connection different from the send target stays registered. -/
theorem sendToConnection_mem_preserve (sendOk : String → Bool) (msg : WireMessage)
    (st : WSState) (x cid : String) (hne : x ≠ cid)
    (hmem : cid ∈ st.connections) :
    cid ∈ (sendToConnection sendOk st x msg).1.connections := by
  unfold sendToConnection
  by_cases hc : st.connections.contains x
  · rw [if_pos hc]
    by_cases hok : sendOk x
    · rw [if_pos hok]
      exact hmem
    · rw [if_neg hok]
      show cid ∈ (cleanupConnection st x).connections
      unfold cleanupConnection
      apply List.mem_filter.mpr
      refine ⟨hmem, ?_⟩
      simp only [bne_iff_ne, ne_eq, decide_eq_true_eq]
      exact fun h => hne h.symm
  · rw [if_neg hc]
    exact hmem

/-- A send to any target keeps an absent id absent. -/
theorem sendToConnection_preserves_absent (sendOk : String → Bool)
    (msg : WireMessage) (st : WSState) (x cid : String)
    (h : absentEverywhere st cid) :
    absentEverywhere (sendToConnection sendOk st x msg).1 cid := by
  unfold sendToConnection
  by_cases hc : st.connections.contains x
  · rw [if_pos hc]
    by_cases hok : sendOk x
    · rw [if_pos hok]
      exact h
    · rw [if_neg hok]
      exact cleanupConnection_preserves_absent st cid x h
  · rw [if_neg hc]
    exact h

/-- The whole fan-out keeps an absent id absent. -/
theorem broadcastGo_preserves_absent (sendOk : String → Bool) (msg : WireMessage) :
    ∀ (rest : List String) (st : WSState) (acc : List (String × WireMessage))
      (cid : String), absentEverywhere st cid →
      absentEverywhere (broadcastGo sendOk msg st acc rest).1 cid := by
  intro rest
  induction rest with
  | nil => intro st acc cid h; exact h
  | cons c rest' ih =>
    intro st acc cid h
    unfold broadcastGo
    exact ih _ _ cid (sendToConnection_preserves_absent sendOk msg st c cid h)

/-- Every still-registered subscriber whose send succeeds receives the
message, regardless of failures at other subscribers. -/
theorem broadcastGo_delivers (sendOk : String → Bool) (msg : WireMessage) :
    ∀ (rest : List String) (st : WSState) (acc : List (String × WireMessage))
      (cid : String), cid ∈ rest → cid ∈ st.connections → sendOk cid = true →
      (cid, msg) ∈ (broadcastGo sendOk msg st acc rest).2 := by
  intro rest
  induction rest with
  | nil => intro st acc cid h; simp at h
  | cons c rest' ih =>
    intro st acc cid hrest hconn hok
    unfold broadcastGo
    rcases List.mem_cons.mp hrest with rfl | h'
    · have hc : st.connections.contains cid = true := by
        exact List.elem_eq_true_of_mem hconn
      unfold sendToConnection
      rw [hc, if_pos rfl, if_pos hok]
      apply broadcastGo_acc_mono
      exact List.mem_append.mpr (Or.inr (List.mem_singleton.mpr rfl))
    · by_cases hcc : c = cid
      · subst hcc
        have hc : st.connections.contains c = true := List.elem_eq_true_of_mem hconn
        unfold sendToConnection
        rw [hc, if_pos rfl, if_pos hok]
        apply broadcastGo_acc_mono
        exact List.mem_append.mpr (Or.inr (List.mem_singleton.mpr rfl))
      · exact ih _ _ cid h'
          (sendToConnection_mem_preserve sendOk msg st c cid hcc hconn) hok

/-- A still-registered subscriber whose send fails is removed from every
registry by the fan-out. -/
theorem broadcastGo_removes_failed (sendOk : String → Bool) (msg : WireMessage) :
    ∀ (rest : List String) (st : WSState) (acc : List (String × WireMessage))
      (cid : String), cid ∈ rest → cid ∈ st.connections → sendOk cid = false →
      absentEverywhere (broadcastGo sendOk msg st acc rest).1 cid := by
  intro rest
  induction rest with
  | nil => intro st acc cid h; simp at h
  | cons c rest' ih =>
    intro st acc cid hrest hconn hok
    unfold broadcastGo
    rcases List.mem_cons.mp hrest with rfl | h'
    · have hc : st.connections.contains cid = true := List.elem_eq_true_of_mem hconn
      unfold sendToConnection
      rw [hc, if_pos rfl, if_neg (by rw [hok]; exact Bool.false_ne_true)]
      apply broadcastGo_preserves_absent
      exact cleanupConnection_absent st cid
    · by_cases hcc : c = cid
      · subst hcc
        have hc : st.connections.contains c = true := List.elem_eq_true_of_mem hconn
        unfold sendToConnection
        rw [hc, if_pos rfl, if_neg (by rw [hok]; exact Bool.false_ne_true)]
        apply broadcastGo_preserves_absent
        exact cleanupConnection_absent st c
      · exact ih _ _ cid h'
          (sendToConnection_mem_preserve sendOk msg st c cid hcc hconn) hok

/-- C6: publishing to a topic with no subscription entry is a no-op; otherwise
the message, tagged with the topic and the timestamp, is delivered to every
subscribed connection that is still registered and whose send succeeds, while
a send failure at an individual connection removes exactly that connection
from every registry without aborting the deliveries to the rest. -/
theorem C6_broadcast_fanout (sendOk : String → Bool) (now : Nat) (st : WSState)
    (topic payload : String) :
    (st.subscriptions.lookup topic = none →
      broadcastToTopic sendOk now st topic payload = (st, [])) ∧
    (∀ subs, st.subscriptions.lookup topic = some subs →
      (∀ cid ∈ subs, cid ∈ st.connections → sendOk cid = true →
        (cid, (⟨payload, some topic, now⟩ : WireMessage)) ∈
          (broadcastToTopic sendOk now st topic payload).2) ∧
      (∀ cid ∈ subs, cid ∈ st.connections → sendOk cid = false →
        absentEverywhere (broadcastToTopic sendOk now st topic payload).1 cid)) := by
  constructor
  · intro hnone
    unfold broadcastToTopic
    rw [hnone]
  · intro subs hsome
    unfold broadcastToTopic
    rw [hsome]
    constructor
    · intro cid hsub hconn hok
      exact broadcastGo_delivers sendOk _ subs st [] cid hsub hconn hok
    · intro cid hsub hconn hfail
      exact broadcastGo_removes_failed sendOk _ subs st [] cid hsub hconn hfail

/-- Witness for C6 on the two-connection hub: sends to `c1` succeed and it
receives the tagged message; sends to `c2` fail and it is removed from every
registry. -/
theorem C6_broadcast_fanout_witness :
    ("c1", (⟨"hello", some "pool_updates", 7⟩ : WireMessage)) ∈
      (broadcastToTopic (fun c => c == "c1") 7 wsStale "pool_updates" "hello").2 ∧
    absentEverywhere
      (broadcastToTopic (fun c => c == "c1") 7 wsStale "pool_updates" "hello").1 "c2" := by
  have h := C6_broadcast_fanout (fun c => c == "c1") 7 wsStale "pool_updates" "hello"
  have h2 := h.2 ["c1", "c2"] rfl
  exact ⟨h2.1 "c1" (by decide) (by decide) rfl, h2.2 "c2" (by decide) (by decide) rfl⟩

/-! ## Subscribe / unsubscribe handlers -/

/-- The fixed set of available subscription topics. -/
def availableTopics : List String :=
  ["agent_updates", "pool_updates", "system_logs", "performance_metrics",
   "task_updates", "optimization_metrics"]

/-- The reply a subscribe/unsubscribe handler sends back on its connection. -/
inductive HandlerReply where
  | subscriptionConfirmed (topic : String)
  | unsubscriptionConfirmed (topic : String)
  | errorMsg (message : String)
  deriving Repr, DecidableEq

/-- Add a connection id to a topic's subscriber set, creating the set on
first use (`self.subscriptions[topic].add(connection_id)`). -/
def addTopicSub (subs : List (String × List String)) (topic cid : String) :
    List (String × List String) :=
  if subs.any (fun p => p.1 == topic) then
    subs.map (fun p =>
      if p.1 == topic then (p.1, if p.2.contains cid then p.2 else p.2 ++ [cid])
      else p)
  else subs ++ [(topic, [cid])]

/-- Record the topic in the connection's metadata subscription set. -/
def metaAddTopic (md : List (String × ConnMeta)) (cid topic : String) :
    List (String × ConnMeta) :=
  md.map (fun p =>
    if p.1 == cid then
      (p.1, { p.2 with subs := if p.2.subs.contains topic then p.2.subs else p.2.subs ++ [topic] })
    else p)

/-- `WebSocketManager._handle_subscribe`: reject a topic outside the available
set with an error reply and no state change; otherwise record the
subscription in both directions and confirm. -/
def handleSubscribe (st : WSState) (cid topic : String) : WSState × HandlerReply :=
  if availableTopics.contains topic then
    ({ st with subscriptions := addTopicSub st.subscriptions topic cid,
               connection_metadata := metaAddTopic st.connection_metadata cid topic },
     HandlerReply.subscriptionConfirmed topic)
  else
    (st, HandlerReply.errorMsg ("Invalid topic: " ++ topic))

/-- `WebSocketManager._handle_unsubscribe`: discard the id from the topic's
subscriber set and the topic from the connection's metadata when present, and
always confirm — no topic validation, no error path. -/
def handleUnsubscribe (st : WSState) (cid topic : String) : WSState × HandlerReply :=
  let subs' :=
    if st.subscriptions.any (fun p => p.1 == topic) then
      st.subscriptions.map (fun p =>
        if p.1 == topic then (p.1, p.2.filter (fun c => c != cid)) else p)
    else st.subscriptions
  let md' := st.connection_metadata.map (fun p =>
    if p.1 == cid then (p.1, { p.2 with subs := p.2.subs.filter (fun t => t != topic) })
    else p)
  ({ st with subscriptions := subs', connection_metadata := md' },
   HandlerReply.unsubscriptionConfirmed topic)

/-- C10: an unsubscribe request always gets an `unsubscription_confirmed`
reply for the given topic and never an error — even for a topic outside the
available set or one the connection never subscribed to — whereas a subscribe
request for a topic outside the available set is answered with an error. -/
theorem C10_unsubscribe_never_errors (st : WSState) (cid topic : String) :
    (handleUnsubscribe st cid topic).2 =
      HandlerReply.unsubscriptionConfirmed topic ∧
    (∀ msg, (handleUnsubscribe st cid topic).2 ≠ HandlerReply.errorMsg msg) ∧
    (availableTopics.contains topic = false →
      (handleSubscribe st cid topic).2 =
        HandlerReply.errorMsg ("Invalid topic: " ++ topic)) := by
  refine ⟨rfl, ?_, ?_⟩
  · intro msg h
    exact HandlerReply.noConfusion h
  · intro hbad
    unfold handleSubscribe
    rw [if_neg (by rw [hbad]; exact Bool.false_ne_true)]

/-- Witness for C10: unsubscribing from the unknown topic `"nope"` is
confirmed, while subscribing to it errors. -/
theorem C10_unsubscribe_never_errors_witness :
    (handleUnsubscribe wsStale "c1" "nope").2 =
      HandlerReply.unsubscriptionConfirmed "nope" ∧
    (∀ msg, (handleUnsubscribe wsStale "c1" "nope").2 ≠ HandlerReply.errorMsg msg) ∧
    (availableTopics.contains "nope" = false →
      (handleSubscribe wsStale "c1" "nope").2 =
        HandlerReply.errorMsg ("Invalid topic: " ++ "nope")) :=
  C10_unsubscribe_never_errors wsStale "c1" "nope"
